import Mathlib

/-!
Verification of the internal-orders ledger (Encomenda-internas).

The definitions below are a shallow embedding of the TypeScript source:
`src/App.tsx` (the status-bearing variant: handleAddOrder, handleStatusChange,
handleDeleteOrder, filteredOrders, the localStorage migration),
`src/components/OrderForm.tsx` (the submit guard), and the two single-record
PDF layouts (`src/unnamed/part_003` with a dynamic cursor, and the fixed-frame
variant in `src/App.tsx`).
-/

/-- The record held by the ledger (interface `Order` in `src/types.ts`,
status-bearing variant).  the `section` field is embedded as `sectionName` (`section` is reserved here); `status` is one of the four literal strings
"Pendente" / "Em Curso" / "Concluído" / "Anulado" at runtime, kept as a plain
string here because persisted snapshots may carry anything. -/
structure Order where
  id : String
  date : String
  orderNumber : String
  item : String
  quantity : String
  client : String
  commercial : String
  sectionName : String
  isOrganicRecycled : Bool
  status : String
deriving DecidableEq

/-- Form input (`OrderFormData = Omit<Order, 'id' | 'orderNumber' | 'status'>`). -/
structure OrderFormData where
  date : String
  item : String
  quantity : String
  client : String
  commercial : String
  sectionName : String
  isOrganicRecycled : Bool
deriving DecidableEq

/-- The record built by `handleAddOrder` in `src/App.tsx`:
`{ id: crypto.randomUUID(), orderNumber: (orders.length + 1).toString(),
status: 'Pendente', ...data }`.  The generated uuid is passed in as `fresh`. -/
def newOrderOf (d : OrderFormData) (fresh : String) (st : List Order) : Order :=
  { id := fresh
    date := d.date
    orderNumber := toString (st.length + 1)
    item := d.item
    quantity := d.quantity
    client := d.client
    commercial := d.commercial
    sectionName := d.sectionName
    isOrganicRecycled := d.isOrganicRecycled
    status := "Pendente" }

/-- `handleAddOrder` (`src/App.tsx` lines 55-64): build the new record and
prepend it (`setOrders(prev => [newOrder, ...prev])`). -/
def handleAddOrder (d : OrderFormData) (fresh : String) (st : List Order) : List Order :=
  newOrderOf d fresh st :: st

/-- `handleStatusChange` (`src/App.tsx` lines 66-70): map over the orders,
replacing the status of each record whose id matches. -/
def handleStatusChange (id : String) (newStatus : String) (st : List Order) : List Order :=
  st.map (fun o => if o.id = id then { o with status := newStatus } else o)

/-- `handleDeleteOrder` (`src/App.tsx` lines 72-91), taking the confirmed
branch of `window.confirm`: filter the id out, then renumber the survivors
with `orderNumber = (filtered.length - index).toString()`. -/
def handleDeleteOrder (id : String) (st : List Order) : List Order :=
  let filtered := st.filter (fun o => o.id ≠ id)
  filtered.mapIdx (fun i o => { o with orderNumber := toString (filtered.length - i) })

/-- The submit guard of `src/components/OrderForm.tsx` line 22:
`if (!formData.item || !formData.client || !formData.section) return;`
(a JS string is falsy exactly when it is empty; no trimming happens). -/
def formGuardPasses (d : OrderFormData) : Bool :=
  !(d.item = "" || d.client = "" || d.sectionName = "")

/-- `handleSubmit` of the order form: call `onAddOrder` (which runs
`handleAddOrder`) only when the guard passes, otherwise do nothing. -/
def handleSubmit (d : OrderFormData) (fresh : String) (st : List Order) : List Order :=
  if formGuardPasses d then handleAddOrder d fresh st else st

/-- The dense-numbering invariant: the record at 0-based newest-first
position `i` carries `orderNumber = toString (N - i)` where `N` is the
ledger size. -/
def ledgerInv (st : List Order) : Prop :=
  ∀ i (h : i < st.length), (st.get ⟨i, h⟩).orderNumber = toString (st.length - i)

instance : DecidablePred ledgerInv := by
  intro st
  unfold ledgerInv
  infer_instance

/-- JS `String.prototype.toLowerCase`, char by char. -/
def lowerStr (s : String) : String :=
  ⟨s.data.map Char.toLower⟩

/-- Does `needle` occur as a contiguous run inside `hay`?  (Char-list core of
JS `String.prototype.includes`.) -/
def occursIn : List Char → List Char → Bool
  | n, [] => n.isEmpty
  | n, c :: t => List.isPrefixOf n (c :: t) || occursIn n t

/-- JS `hay.includes(needle)`. -/
def includesStr (hay needle : String) : Bool :=
  occursIn needle.data hay.data

/-- Value of the longest leading digit run, `none` when there is none. -/
def digitsVal (cs : List Char) : Option Nat :=
  let ds := cs.takeWhile Char.isDigit
  if ds.isEmpty then none else
    some (ds.foldl (fun a c => 10 * a + (c.toNat - 48)) 0)

/-- JS `parseInt(s, 10)`: skip leading whitespace, optional sign, then the
longest digit run; `none` models `NaN`. -/
def parseIntJS (s : String) : Option Int :=
  match s.data.dropWhile Char.isWhitespace with
  | '-' :: rest => (digitsVal rest).map (fun n => -(n : Int))
  | '+' :: rest => (digitsVal rest).map (fun n => (n : Int))
  | cs => (digitsVal cs).map (fun n => (n : Int))

/-- The sort key of `filteredOrders`: `parseInt(order.orderNumber || '0', 10)`
(`none` models `NaN` from a non-numeric order number; the empty string falls
back to `'0'`). -/
def jsKey (s : String) : Option Int :=
  parseIntJS (if s = "" then "0" else s)

/-- `a` may stay before `b` under the comparator `(a, b) => numB - numA`:
the sort keeps the pair in place unless the comparator is positive, and a
`NaN` comparator value is treated as `+0` by `Array.prototype.sort`. -/
def jsLe (a b : Order) : Bool :=
  match jsKey a.orderNumber, jsKey b.orderNumber with
  | some x, some y => decide (y ≤ x)
  | _, _ => true

/-- Insert `a` in front of the first element it may precede. -/
def insertLe {α : Type} (le : α → α → Bool) (a : α) : List α → List α
  | [] => [a]
  | b :: bs => if le a b then a :: b :: bs else b :: insertLe le a bs

/-- Stable comparison sort (insertion sort), the extensional behaviour that
ECMAScript 2019+ guarantees for `Array.prototype.sort` with a consistent
comparator. -/
def stableSort {α : Type} (le : α → α → Bool) : List α → List α
  | [] => []
  | x :: xs => insertLe le x (stableSort le xs)

/-- The filter body of `filteredOrders` (`src/App.tsx` lines 96-107):
`clientMatch && numberMatch && statusMatch`, where an empty search string
(JS falsy) disables the number and status filters and an empty
`order.orderNumber` (JS falsy) fails a non-empty number search. -/
def orderMatches (searchClient searchOrderNumber searchStatus : String) (o : Order) : Bool :=
  includesStr (lowerStr o.client) (lowerStr searchClient) &&
  (searchOrderNumber = "" || (o.orderNumber ≠ "" && includesStr o.orderNumber searchOrderNumber)) &&
  (searchStatus = "" || o.status = searchStatus)

/-- `filteredOrders` (`src/App.tsx` lines 94-114): filter by client substring
(case-insensitive), order-number substring and exact status, then sort by the
numeric order number, descending. -/
def filteredOrders (searchClient searchOrderNumber searchStatus : String)
    (orders : List Order) : List Order :=
  stableSort jsLe (orders.filter (orderMatches searchClient searchOrderNumber searchStatus))

/-- The numeric value the sort compares: `parseInt(orderNumber || '0', 10)`,
with `NaN` read as 0 only for the purpose of stating descending order (the
sortedness results below assume every key parses, so the default is never
taken there). -/
def keyNum (o : Order) : Int :=
  (jsKey o.orderNumber).getD 0

/-- Descending numeric order on sequence numbers: `b`'s key is at most
`a`'s. -/
def DescKey (a b : Order) : Prop :=
  keyNum b ≤ keyNum a

/-- A record as it sits in a persisted snapshot: `status` and `commercial`
may be missing (`none`); the migration (`src/App.tsx` lines 29-33) only
touches those two fields, so the others are kept as plain strings. -/
structure RawOrder where
  id : String
  date : String
  orderNumber : String
  item : String
  quantity : String
  client : String
  sectionName : String
  isOrganicRecycled : Bool
  status : Option String
  commercial : Option String
deriving DecidableEq

/-- JS `v || dflt` on an optional string: `undefined` and `""` are falsy. -/
def jsOrDefault (v : Option String) (dflt : String) : String :=
  match v with
  | none => dflt
  | some s => if s = "" then dflt else s

/-- One step of the load migration (`src/App.tsx` lines 29-33):
`{ ...o, status: o.status || 'Pendente', commercial: o.commercial || '' }`. -/
def migrateOrder (o : RawOrder) : Order :=
  { id := o.id
    date := o.date
    orderNumber := o.orderNumber
    item := o.item
    quantity := o.quantity
    client := o.client
    commercial := jsOrDefault o.commercial ""
    sectionName := o.sectionName
    isOrganicRecycled := o.isOrganicRecycled
    status := jsOrDefault o.status "Pendente" }

/-- `migratedOrders`: the migration applied to every parsed record. -/
def migratedOrders (l : List RawOrder) : List Order :=
  l.map migrateOrder

/-- The whitespace trimming the spec speaks about ("non-empty after
trimming"); the submit guard in the source performs no such trimming. -/
def trimStr (s : String) : String :=
  ⟨(((s.data.dropWhile Char.isWhitespace).reverse.dropWhile Char.isWhitespace).reverse)⟩

/-- An operation on the ledger: the UI can add a record (the generated uuid
is the `fresh` argument) or delete one by id (confirmed branch). -/
inductive LedgerOp
  | add (d : OrderFormData) (fresh : String)
  | remove (id : String)

/-- Apply one ledger operation. -/
def applyOp (st : List Order) : LedgerOp → List Order
  | .add d fresh => handleAddOrder d fresh st
  | .remove id => handleDeleteOrder id st

/-- Run a sequence of ledger operations from the empty ledger. -/
def runOps (ops : List LedgerOp) : List Order :=
  ops.foldl applyOp []

/-!
Single-record PDF layouts.  All vertical coordinates are kept in half-units
(twice the jsPDF millimetre values of the source) so that the half-step
`y += lineHeight * 1.5` stays integral.

Dynamic-cursor layout (`handleExportOrder` in `src/unnamed/part_003`):
`y` starts at 50, `lineHeight = 7`, the item description is wrapped by the
drawing surface into `k` lines and the code allocates `textHeight =
splitItem.length * 6` for the block; every later element is placed by the
advancing cursor and the outer frame is drawn from `y = 40` down to the final
cursor plus a margin of 10.
-/

/-- Cursor start (`let y = 50`), doubled. -/
def dynStartY : ℕ := 100

/-- `lineHeight = 7`, doubled. -/
def dynLineHeight : ℕ := 14

/-- Allocated height per wrapped description line (`splitItem.length * 6`:
6 per line), doubled. -/
def dynDescLine : ℕ := 12

/-- The basic-info row (`Nº Encomenda` / `Data`), drawn at the initial cursor. -/
def dynRow1Y : ℕ := dynStartY

/-- The `Artigo / Serviço:` label: `y += lineHeight * 2` first. -/
def dynDescLabelY : ℕ := dynStartY + dynLineHeight * 2

/-- First wrapped description line: `y += lineHeight` after the label. -/
def dynDescTextY : ℕ := dynDescLabelY + dynLineHeight

/-- The cursor after the description block:
`y += textHeight + lineHeight` with `textHeight = 6 * k`. -/
def dynAfterDescY (k : ℕ) : ℕ := dynDescTextY + dynDescLine * k + dynLineHeight

/-- The separator line, drawn at `y - 5` (10 half-units). -/
def dynSepY (k : ℕ) : ℕ := dynAfterDescY k - 10

/-- The `Cliente` / `Secção` label-value row, drawn after `y += 5`. -/
def dynClientRowY (k : ℕ) : ℕ := dynAfterDescY k + 10

/-- The `Quantidade` row, drawn after `y += lineHeight * 1.5` (21 half-units). -/
def dynQtyRowY (k : ℕ) : ℕ := dynClientRowY k + 21

/-- Top edge of the outer frame (`boxStart = 40`), doubled. -/
def dynFrameTop : ℕ := 80

/-- The end margin (`boxHeight = (y + 10) - boxStart`), doubled. -/
def dynMargin : ℕ := 20

/-- Bottom edge of the outer frame: final cursor plus the margin. -/
def dynFrameBottom (k : ℕ) : ℕ := dynQtyRowY k + dynMargin

/-- Vertical offsets of every content element the dynamic layout draws for a
description of `k` wrapped lines (the fixed footer at `y = 280` sits outside
the frame by design and is not content). -/
def dynContentYs (k : ℕ) : List ℕ :=
  [dynRow1Y, dynDescLabelY] ++
    (List.range k).map (fun i => dynDescTextY + dynDescLine * i) ++
    [dynSepY k, dynClientRowY k, dynQtyRowY k]

/-!
Fixed-frame layout (the second `handleExportOrder` variant in `src/App.tsx`,
lines 528-601): `startY = 50`, `lineHeight = 10`, the detail box is
`doc.rect(14, startY - 5, 182, 110)` — top edge 45, bottom edge 155 — and the
wrapped description starts at `startY + lineHeight * 8.5 = 135`, its lines
advancing by whatever per-line step the drawing surface uses (the code never
measures it).  All values doubled as above.
-/

/-- Bottom edge of the fixed detail box (45 + 110 = 155), doubled. -/
def fixFrameBottom : ℕ := 310

/-- The `i`-th wrapped description line (0-based): start offset 135, doubled
to 270, advancing `d` half-units per line (`d` is the drawing-surface
line step, outside the code's control; jsPDF uses about 4.87 mm, i.e. about
10 half-units, at this font size). -/
def fixDescLineY (d i : ℕ) : ℕ := 270 + d * i

/-- Offsets of the content the fixed-frame layout draws for `k` wrapped
description lines with surface line step `d`: the label/value rows at
`startY + lineHeight * m` for `m = 0, 1, 2, 2.5, 3.5, 4.5, 5.5, 6.5, 7.5`,
then the description lines. -/
def fixContentYs (d k : ℕ) : List ℕ :=
  [100, 120, 140, 150, 170, 190, 210, 230, 250] ++
    (List.range k).map (fun i => fixDescLineY d i)

/-! ### Numbering invariant (claims about add, remove and operation sequences) -/

theorem ledgerInv_nil : ledgerInv [] := by
  intro i h
  exact absurd h (by simp)

theorem ledgerInv_handleDeleteOrder (id : String) (st : List Order) :
    ledgerInv (handleDeleteOrder id st) := by
  intro i h
  simp only [handleDeleteOrder, List.get_eq_getElem, List.getElem_mapIdx, List.length_mapIdx]

theorem ledgerInv_handleAddOrder (d : OrderFormData) (fresh : String) (st : List Order)
    (hinv : ledgerInv st) : ledgerInv (handleAddOrder d fresh st) := by
  intro i hi
  cases i with
  | zero =>
    simp [handleAddOrder, newOrderOf]
  | succ j =>
    have hj : j < st.length := by
      simpa [handleAddOrder] using hi
    have := hinv j hj
    simp only [handleAddOrder, List.get_eq_getElem, List.getElem_cons_succ,
      List.length_cons] at *
    rw [this]
    congr 1
    omega

theorem ledgerInv_foldl (ops : List LedgerOp) :
    ∀ st : List Order, ledgerInv st → ledgerInv (ops.foldl applyOp st) := by
  induction ops with
  | nil => intro st h; simpa using h
  | cons op ops ih =>
    intro st h
    rw [List.foldl_cons]
    cases op with
    | add d fresh => exact ih _ (ledgerInv_handleAddOrder d fresh st h)
    | remove id => exact ih _ (ledgerInv_handleDeleteOrder id st)

theorem map_orderNumber_of_inv (st : List Order) (h : ledgerInv st) :
    st.map (fun o => o.orderNumber) = ((List.range' 1 st.length).reverse).map toString := by
  apply List.ext_get
  · simp [List.length_range']
  · intro n h1 h2
    have hn : n < st.length := by simpa using h1
    have hv := h n hn
    simp only [List.get_eq_getElem] at hv ⊢
    simp only [List.getElem_map, List.getElem_reverse, List.getElem_range',
      List.length_range', List.length_reverse]
    rw [hv]
    congr 1
    omega

/-- C1.  For every sequence of add and remove operations starting from the
empty ledger, the surviving records are densely numbered: the record at
0-based newest-first position `i` carries `sequenceNumber = toString (N - i)`
(this is `ledgerInv`), and the multiset of sequence-number strings is exactly
`{toString 1, …, toString N}` where `N` is the current ledger size. -/
theorem ledger_numbering_dense (ops : List LedgerOp) :
    ledgerInv (runOps ops) ∧
    ((runOps ops).map (fun o => o.orderNumber)).Perm
      ((List.range' 1 (runOps ops).length).map toString) := by
  have hinv : ledgerInv (runOps ops) := ledgerInv_foldl ops [] ledgerInv_nil
  refine ⟨hinv, ?_⟩
  rw [map_orderNumber_of_inv _ hinv]
  exact (List.reverse_perm _).map toString

/-- Concrete run of `ledger_numbering_dense`: add three records, delete the
middle one, and read off the dense numbering of the result. -/
theorem ledger_numbering_dense_check :
    ledgerInv (runOps [LedgerOp.add ⟨"d", "i", "q", "A", "", "s", false⟩ "u1",
      LedgerOp.add ⟨"d", "i", "q", "B", "", "s", false⟩ "u2",
      LedgerOp.add ⟨"d", "i", "q", "C", "", "s", false⟩ "u3",
      LedgerOp.remove "u2"]) :=
  (ledger_numbering_dense _).1

/-- C3.  `add` prepends a record holding the supplied form data, the freshly
generated id, `sequenceNumber = currentSize + 1` and the default status
`Pendente`; the head of the new ledger is the created record. -/
theorem add_creates_head_record (d : OrderFormData) (fresh : String) (st : List Order) :
    handleAddOrder d fresh st = newOrderOf d fresh st :: st ∧
    (newOrderOf d fresh st).orderNumber = toString (st.length + 1) ∧
    (newOrderOf d fresh st).status = "Pendente" ∧
    (newOrderOf d fresh st).id = fresh ∧
    (newOrderOf d fresh st).item = d.item ∧
    (newOrderOf d fresh st).client = d.client ∧
    (newOrderOf d fresh st).date = d.date ∧
    (newOrderOf d fresh st).quantity = d.quantity ∧
    (newOrderOf d fresh st).commercial = d.commercial ∧
    (newOrderOf d fresh st).sectionName = d.sectionName ∧
    (newOrderOf d fresh st).isOrganicRecycled = d.isOrganicRecycled :=
  ⟨rfl, rfl, rfl, rfl, rfl, rfl, rfl, rfl, rfl, rfl, rfl⟩

/-- C9.  `add` leaves every pre-existing record untouched and in relative
order (the tail of the new ledger is the old ledger, verbatim), and the dense
numbering invariant survives the prepend because the new head takes number
`N + 1`. -/
theorem add_preserves_existing (d : OrderFormData) (fresh : String) (st : List Order) :
    handleAddOrder d fresh st = newOrderOf d fresh st :: st ∧
    (handleAddOrder d fresh st).tail = st ∧
    (ledgerInv st → ledgerInv (handleAddOrder d fresh st)) :=
  ⟨rfl, rfl, ledgerInv_handleAddOrder d fresh st⟩

/-- Concrete run of `add_preserves_existing` on a two-record ledger already
satisfying the invariant. -/
theorem add_preserves_existing_check :
    ledgerInv (handleAddOrder ⟨"d", "i", "q", "C", "", "s", false⟩ "u9"
      [{ id := "a", date := "d", orderNumber := "2", item := "i", quantity := "q",
         client := "A", commercial := "", sectionName := "s",
         isOrganicRecycled := false, status := "Pendente" },
       { id := "b", date := "d", orderNumber := "1", item := "i", quantity := "q",
         client := "B", commercial := "", sectionName := "s",
         isOrganicRecycled := false, status := "Pendente" }]) :=
  (add_preserves_existing _ _ _).2.2 (by decide)

/-! ### Removal of an absent id (claim C5) -/

/-- A single-record ledger violating the dense numbering (as a loaded
snapshot may). -/
def stray : Order :=
  { id := "a", date := "d", orderNumber := "7", item := "i", quantity := "q",
    client := "c", commercial := "", sectionName := "s",
    isOrganicRecycled := false, status := "Pendente" }

/-- A single-record ledger satisfying the dense numbering. -/
def okOne : Order :=
  { id := "a", date := "d", orderNumber := "1", item := "i", quantity := "q",
    client := "c", commercial := "", sectionName := "s",
    isOrganicRecycled := false, status := "Pendente" }

/-- Counterexample to C5: deleting an id that is not in the ledger raises no
error at all, and on a ledger that does not satisfy the dense-numbering
invariant it is not even a no-op — the survivors are renumbered. -/
theorem remove_absent_changes_state :
    stray.id ≠ "zz" ∧ handleDeleteOrder "zz" [stray] ≠ [stray] := by decide

/-- C5 (amended).  Deleting an absent id never fails (the code has no
`NotFoundError`); on any ledger satisfying the dense-numbering invariant the
renumbering pass recomputes each record's existing number, so the ledger is
left unchanged and every surviving record keeps its sequence number. -/
theorem remove_absent_identity (id : String) (st : List Order)
    (hinv : ledgerInv st) (habs : ∀ o ∈ st, o.id ≠ id) :
    handleDeleteOrder id st = st := by
  have hfil : st.filter (fun o => o.id ≠ id) = st :=
    List.filter_eq_self.mpr (fun o ho => by simpa using habs o ho)
  simp only [handleDeleteOrder]
  rw [hfil]
  apply List.ext_get
  · simp
  · intro n h1 h2
    simp only [List.get_eq_getElem, List.getElem_mapIdx]
    have hv := hinv n h2
    simp only [List.get_eq_getElem] at hv
    rw [← hv]

/-- Concrete run of `remove_absent_identity` on a well-numbered ledger. -/
theorem remove_absent_identity_check :
    handleDeleteOrder "zz" [okOne] = [okOne] :=
  remove_absent_identity "zz" [okOne] (by decide) (by decide)

/-! ### Status update (claim C7) -/

/-- C7.  `setStatus` keeps the length, replaces exactly the status of the
record(s) whose id matches while leaving id, sequence number, every other
field, every other record and every position untouched, and two successive
updates leave the last status. -/
theorem setStatus_replaces_only_status (id X Y : String) (st : List Order) :
    (handleStatusChange id Y st).length = st.length ∧
    (∀ i (h : i < st.length) (h2 : i < (handleStatusChange id Y st).length),
      (handleStatusChange id Y st).get ⟨i, h2⟩ =
        if (st.get ⟨i, h⟩).id = id then { st.get ⟨i, h⟩ with status := Y }
        else st.get ⟨i, h⟩) ∧
    (∀ i (h : i < st.length)
        (h3 : i < (handleStatusChange id Y (handleStatusChange id X st)).length),
      (st.get ⟨i, h⟩).id = id →
        (handleStatusChange id Y (handleStatusChange id X st)).get ⟨i, h3⟩ =
          { st.get ⟨i, h⟩ with status := Y }) := by
  refine ⟨by simp [handleStatusChange], ?_, ?_⟩
  · intro i h h2
    simp only [handleStatusChange, List.get_eq_getElem, List.getElem_map]
  · intro i h h3 hid
    simp only [List.get_eq_getElem] at hid
    simp [handleStatusChange, List.getElem_map, hid]

/-- Concrete run of `setStatus_replaces_only_status`: two successive updates
leave the last status and everything else intact. -/
theorem setStatus_replaces_only_status_check :
    (handleStatusChange "a" "Concluído" (handleStatusChange "a" "Em Curso" [okOne])).get
      ⟨0, by decide⟩ = { okOne with status := "Concluído" } :=
  (setStatus_replaces_only_status "a" "Em Curso" "Concluído" [okOne]).2.2
    0 (by decide) (by decide) (by decide)

/-! ### Load migration (claim C8) -/

/-- A raw snapshot record with both migratable fields missing. -/
def rawMissing : RawOrder :=
  ⟨"a", "d", "1", "it", "q", "c", "s", false, none, none⟩

/-- A raw snapshot record whose status field is present but empty. -/
def rawEmptyStatus : RawOrder :=
  ⟨"b", "d", "2", "it", "q", "c", "s", false, some "", some "ag"⟩

/-- Counterexample to C8: the migration uses the falsy check `o.status ||
'Pendente'`, so a record whose status field is PRESENT with value `""` is
rewritten to `Pendente` — a present field is modified. -/
theorem migration_overwrites_present_empty_status :
    rawEmptyStatus.status = some "" ∧
    (migrateOrder rawEmptyStatus).status = "Pendente" ∧
    (migrateOrder rawEmptyStatus).status ≠ "" := by decide

/-- C8 (amended).  Loading defaults a missing or empty status to `Pendente`
and a missing commercial agent to `""` (a present commercial agent, even the
empty string, is returned unchanged), and every other field of every record
is left unmodified. -/
theorem migration_defaulting (o : RawOrder) :
    ((o.status = none ∨ o.status = some "") → (migrateOrder o).status = "Pendente") ∧
    (∀ s, o.status = some s → s ≠ "" → (migrateOrder o).status = s) ∧
    (o.commercial = none → (migrateOrder o).commercial = "") ∧
    (∀ s, o.commercial = some s → (migrateOrder o).commercial = s) ∧
    (migrateOrder o).id = o.id ∧
    (migrateOrder o).date = o.date ∧
    (migrateOrder o).orderNumber = o.orderNumber ∧
    (migrateOrder o).item = o.item ∧
    (migrateOrder o).quantity = o.quantity ∧
    (migrateOrder o).client = o.client ∧
    (migrateOrder o).sectionName = o.sectionName ∧
    (migrateOrder o).isOrganicRecycled = o.isOrganicRecycled := by
  refine ⟨?_, ?_, ?_, ?_, rfl, rfl, rfl, rfl, rfl, rfl, rfl, rfl⟩
  · rintro (h | h) <;> simp [migrateOrder, jsOrDefault, h]
  · intro s hs hne
    simp [migrateOrder, jsOrDefault, hs, hne]
  · intro h
    simp [migrateOrder, jsOrDefault, h]
  · intro s hs
    simp only [migrateOrder, jsOrDefault, hs]
    by_cases h : s = "" <;> simp [h]

/-- Concrete run of `migration_defaulting` on a record missing both fields. -/
theorem migration_defaulting_check :
    (migrateOrder rawMissing).status = "Pendente" ∧
    (migrateOrder rawMissing).commercial = "" :=
  ⟨(migration_defaulting rawMissing).1 (Or.inl rfl),
   (migration_defaulting rawMissing).2.2.1 rfl⟩

/-! ### Form validation (claim C6) -/

/-- Form input whose item is a single space: non-empty as a JS string, empty
after trimming. -/
def dWhite : OrderFormData :=
  ⟨"2024-01-01", " ", "", "x", "", "Jacquard", false⟩

/-- Counterexample to C6: the submit guard checks only JS falsiness and never
trims, so an item consisting of one space — empty after trimming — passes
validation and the record is created; no error value naming a field exists
anywhere in the flow. -/
theorem whitespace_item_passes_guard :
    trimStr dWhite.item = "" ∧ formGuardPasses dWhite = true ∧
    handleSubmit dWhite "u1" [] = handleAddOrder dWhite "u1" [] := by decide

/-- C6 (amended).  Submission is silently dropped exactly when `item`,
`client` or `section` is the empty string (no trimming, no error value, and
`quantity` is never checked); whenever the guard passes the record is added —
`add` itself performs no validation and never fails. -/
theorem submit_guard_characterisation (d : OrderFormData) (fresh : String) (st : List Order) :
    (handleSubmit d fresh st = st ↔ (d.item = "" ∨ d.client = "" ∨ d.sectionName = "")) ∧
    (formGuardPasses d = true → handleSubmit d fresh st = handleAddOrder d fresh st) := by
  constructor
  · constructor
    · intro h
      by_contra hc
      push_neg at hc
      obtain ⟨h1, h2, h3⟩ := hc
      have hg : formGuardPasses d = true := by simp [formGuardPasses, h1, h2, h3]
      simp only [handleSubmit, hg, if_true] at h
      have := congrArg List.length h
      simp [handleAddOrder] at this
    · intro h
      have hg : formGuardPasses d = false := by
        rcases h with h | h | h <;> simp [formGuardPasses, h]
      simp [handleSubmit, hg]
  · intro hg
    simp [handleSubmit, hg]

/-- Concrete run of `submit_guard_characterisation`: the guard passes on the
whitespace item and the submission goes through to `add`. -/
theorem submit_guard_characterisation_check :
    handleSubmit dWhite "u2" [] = handleAddOrder dWhite "u2" [] :=
  (submit_guard_characterisation dWhite "u2" []).2 (by decide)

/-! ### The filtered, sorted view (claims C4 and C10) -/

theorem insertLe_perm {α : Type} (le : α → α → Bool) (a : α) (l : List α) :
    (insertLe le a l).Perm (a :: l) := by
  induction l with
  | nil => exact List.Perm.refl _
  | cons b bs ih =>
    simp only [insertLe]
    by_cases h : le a b = true
    · rw [if_pos h]
    · rw [if_neg h]
      exact (ih.cons b).trans (List.Perm.swap a b bs)

theorem stableSort_perm {α : Type} (le : α → α → Bool) (l : List α) :
    (stableSort le l).Perm l := by
  induction l with
  | nil => exact List.Perm.refl _
  | cons x xs ih =>
    exact (insertLe_perm le x (stableSort le xs)).trans (ih.cons x)

theorem jsLe_iff {a b : Order} (ha : (jsKey a.orderNumber).isSome = true)
    (hb : (jsKey b.orderNumber).isSome = true) :
    jsLe a b = true ↔ keyNum b ≤ keyNum a := by
  obtain ⟨x, hx⟩ := Option.isSome_iff_exists.mp ha
  obtain ⟨y, hy⟩ := Option.isSome_iff_exists.mp hb
  simp [jsLe, keyNum, hx, hy]

theorem pairwise_insertLe (a : Order) (ha : (jsKey a.orderNumber).isSome = true) :
    ∀ l : List Order, (∀ o ∈ l, (jsKey o.orderNumber).isSome = true) →
      l.Pairwise DescKey → (insertLe jsLe a l).Pairwise DescKey := by
  intro l
  induction l with
  | nil =>
    intro _ _
    simp [insertLe]
  | cons b bs ih =>
    intro hl hp
    have hb : (jsKey b.orderNumber).isSome = true := hl b (by simp)
    have hbs : ∀ o ∈ bs, (jsKey o.orderNumber).isSome = true :=
      fun o ho => hl o (by simp [ho])
    simp only [insertLe]
    by_cases h : jsLe a b = true
    · rw [if_pos h]
      have hab : keyNum b ≤ keyNum a := (jsLe_iff ha hb).mp h
      refine List.pairwise_cons.mpr ⟨?_, hp⟩
      intro z hz
      rcases List.mem_cons.mp hz with rfl | hz'
      · exact hab
      · exact le_trans ((List.pairwise_cons.mp hp).1 z hz') hab
    · rw [if_neg h]
      have hba : DescKey b a := by
        have hc : ¬ keyNum b ≤ keyNum a := fun hc => h ((jsLe_iff ha hb).mpr hc)
        simp only [DescKey]
        omega
      refine List.pairwise_cons.mpr ⟨?_, ih hbs hp.of_cons⟩
      intro z hz
      rcases List.mem_cons.mp ((insertLe_perm jsLe a bs).mem_iff.mp hz) with rfl | hz'
      · exact hba
      · exact (List.pairwise_cons.mp hp).1 z hz'

theorem pairwise_stableSort :
    ∀ l : List Order, (∀ o ∈ l, (jsKey o.orderNumber).isSome = true) →
      (stableSort jsLe l).Pairwise DescKey := by
  intro l
  induction l with
  | nil =>
    intro _
    simp [stableSort]
  | cons x xs ih =>
    intro hl
    have hx : (jsKey x.orderNumber).isSome = true := hl x (by simp)
    have hxs : ∀ o ∈ xs, (jsKey o.orderNumber).isSome = true :=
      fun o ho => hl o (by simp [ho])
    refine pairwise_insertLe x hx _ ?_ (ih hxs)
    intro o ho
    exact hxs o ((stableSort_perm jsLe xs).mem_iff.mp ho)

theorem occursIn_nil_needle (hay : List Char) : occursIn [] hay = true := by
  cases hay <;> simp [occursIn, List.isPrefixOf]

theorem includesStr_empty_needle (hay : String) : includesStr hay "" = true :=
  occursIn_nil_needle hay.data

theorem includesStr_empty_hay {needle : String} (h : needle ≠ "") :
    includesStr "" needle = false := by
  cases hd : needle.data with
  | nil => exact absurd (String.ext hd) h
  | cons c t => simp [includesStr, hd, occursIn]

theorem orderMatches_iff (cf nf sf : String) (o : Order) :
    orderMatches cf nf sf o = true ↔
      (includesStr (lowerStr o.client) (lowerStr cf) = true ∧
       includesStr o.orderNumber nf = true ∧
       (sf = "" ∨ o.status = sf)) := by
  simp only [orderMatches, Bool.and_eq_true, Bool.or_eq_true, decide_eq_true_eq,
    ne_eq, Bool.not_eq_true]
  constructor
  · rintro ⟨⟨hc, hn⟩, hs⟩
    refine ⟨hc, ?_, by simpa using hs⟩
    rcases hn with hn | hn
    · rw [hn]
      exact includesStr_empty_needle o.orderNumber
    · exact (by simpa using hn : ¬o.orderNumber = "" ∧ includesStr o.orderNumber nf = true).2
  · rintro ⟨hc, hn, hs⟩
    refine ⟨⟨hc, ?_⟩, by simpa using hs⟩
    by_cases hnf : nf = ""
    · exact Or.inl (by simpa using hnf)
    · right
      by_cases hon : o.orderNumber = ""
      · rw [hon] at hn
        rw [includesStr_empty_hay hnf] at hn
        cases hn
      · simp [hon, hn]

/-- C4.  Whenever every record of the snapshot carries a numeric sequence
number (as every reachable ledger state does), the computed view contains a
record exactly when the record is in the snapshot and its client name
contains the client filter case-insensitively, the decimal string of its
sequence number contains the number filter as a substring, and its status
equals a non-disabled status filter exactly — and the view is ordered by
sequence number descending under numeric comparison. -/
theorem filtered_view_exact (cf nf sf : String) (snap : List Order)
    (hnum : ∀ o ∈ snap, (jsKey o.orderNumber).isSome = true) :
    (∀ o : Order, o ∈ filteredOrders cf nf sf snap ↔
      (o ∈ snap ∧ includesStr (lowerStr o.client) (lowerStr cf) = true ∧
       includesStr o.orderNumber nf = true ∧ (sf = "" ∨ o.status = sf))) ∧
    (filteredOrders cf nf sf snap).Pairwise DescKey := by
  constructor
  · intro o
    rw [filteredOrders,
      (stableSort_perm jsLe (snap.filter (orderMatches cf nf sf))).mem_iff,
      List.mem_filter, orderMatches_iff]
  · rw [filteredOrders]
    refine pairwise_stableSort _ ?_
    intro o ho
    exact hnum o (List.mem_filter.mp ho).1

/-- Record with sequence number 1 (client `Alpha`). -/
def o1ex : Order :=
  { id := "p", date := "d", orderNumber := "1", item := "i", quantity := "q",
    client := "Alpha", commercial := "", sectionName := "s",
    isOrganicRecycled := false, status := "Pendente" }

/-- Record with sequence number 2 (client `Beta`). -/
def o2ex : Order :=
  { id := "r", date := "d", orderNumber := "2", item := "i", quantity := "q",
    client := "Beta", commercial := "", sectionName := "s",
    isOrganicRecycled := false, status := "Em Curso" }

/-- Concrete run of `filtered_view_exact`: on the snapshot `[2, 1]` the
number filter `"1"` admits the record numbered 1. -/
theorem filtered_view_exact_check :
    o1ex ∈ filteredOrders "" "1" "" [o2ex, o1ex] :=
  ((filtered_view_exact "" "1" "" [o2ex, o1ex] (by decide)).1 o1ex).mpr (by decide)

/-- Record whose persisted sequence number is not numeric. -/
def oAbc : Order :=
  { id := "x1", date := "d", orderNumber := "abc", item := "i", quantity := "q",
    client := "n", commercial := "", sectionName := "s",
    isOrganicRecycled := false, status := "Pendente" }

/-- Record with sequence number 5. -/
def oFive : Order :=
  { id := "x2", date := "d", orderNumber := "5", item := "i", quantity := "q",
    client := "n", commercial := "", sectionName := "s",
    isOrganicRecycled := false, status := "Pendente" }

/-- Counterexample to C10: a record whose sequence number string is
non-numeric gives the comparator `NaN`, which the sort treats as a tie
(`+0`), not as the number 0 — so with every filter empty the view keeps it
in front of a record with positive sequence number instead of placing it
after all of them. -/
theorem non_numeric_stays_in_place :
    parseIntJS oAbc.orderNumber = none ∧
    jsKey oFive.orderNumber = some 5 ∧
    filteredOrders "" "" "" [oAbc, oFive] = [oAbc, oFive] := by decide

/-- C10 (amended).  With all three filter fields empty the view is a
permutation of the whole ledger, sorted descending by numeric sequence
number whenever every number parses; an empty sequence-number string is
compared as the number 0 (the `|| '0'` fallback), while a non-numeric one
compares as a tie against every record, so the stable sort leaves it in
place. -/
theorem empty_filters_whole_ledger (snap : List Order) :
    (filteredOrders "" "" "" snap).Perm snap ∧
    ((∀ o ∈ snap, (jsKey o.orderNumber).isSome = true) →
      (filteredOrders "" "" "" snap).Pairwise DescKey) ∧
    jsKey "" = some 0 ∧
    (∀ a b : Order, jsKey a.orderNumber = none → jsLe a b = true ∧ jsLe b a = true) := by
  have hfil : snap.filter (orderMatches "" "" "") = snap := by
    refine List.filter_eq_self.mpr ?_
    intro o _
    rw [orderMatches_iff]
    exact ⟨includesStr_empty_needle _, includesStr_empty_needle _, Or.inl rfl⟩
  refine ⟨?_, ?_, by decide, ?_⟩
  · rw [filteredOrders, hfil]
    exact stableSort_perm jsLe snap
  · intro h
    rw [filteredOrders, hfil]
    exact pairwise_stableSort snap h
  · intro a b h
    cases hk : jsKey b.orderNumber <;> simp [jsLe, h, hk]

/-- Concrete run of `empty_filters_whole_ledger`: the singleton ledger is
returned sorted. -/
theorem empty_filters_whole_ledger_check :
    (filteredOrders "" "" "" [oFive]).Pairwise DescKey :=
  (empty_filters_whole_ledger [oFive]).2.1 (by decide)

/-! ### Single-record document layout (claim C2) -/

theorem dynDescTextY_eq : dynDescTextY = 142 := rfl

theorem dynAfterDescY_eq (k : ℕ) : dynAfterDescY k = 156 + 12 * k := by
  unfold dynAfterDescY dynDescTextY dynDescLabelY dynStartY dynLineHeight dynDescLine
  omega

theorem dynSepY_eq (k : ℕ) : dynSepY k = 146 + 12 * k := by
  unfold dynSepY
  rw [dynAfterDescY_eq]
  omega

theorem dynClientRowY_eq (k : ℕ) : dynClientRowY k = 166 + 12 * k := by
  unfold dynClientRowY
  rw [dynAfterDescY_eq]
  omega

theorem dynQtyRowY_eq (k : ℕ) : dynQtyRowY k = 187 + 12 * k := by
  unfold dynQtyRowY
  rw [dynClientRowY_eq]
  omega

theorem dynFrameBottom_eq (k : ℕ) : dynFrameBottom k = 207 + 12 * k := by
  unfold dynFrameBottom dynMargin
  rw [dynQtyRowY_eq]
  omega

/-- Counterexample to C2: in the fixed-frame single-record layout of
`src/App.tsx` the detail box has constant height (bottom edge 155, 310 in
half-units) while the description block starts at 135 (270) and grows with
its wrapped line count; already with a per-line advance of a single unit
(2 half-units — far below the roughly 4.87 units jsPDF actually advances),
line 24 of a 25-line description is drawn strictly below the frame bottom,
so the frame does not enclose the record content. -/
theorem fixed_frame_not_enclosing :
    fixDescLineY 2 24 ∈ fixContentYs 2 25 ∧ fixFrameBottom < fixDescLineY 2 24 := by
  decide

/-- C2 (amended, for the dynamic-cursor layout of `src/unnamed/part_003`,
with the per-line allocation of 6 units the code itself uses for the
description block).  For a description of `k ≥ 1` wrapped lines: the first
element drawn after the description block (the separator) and the
label/value row after it both begin strictly below the block start plus
`k` line heights; the content offsets are strictly increasing (no overlap);
the frame top lies above the first row; and the frame bottom lies below
every content element by at least the fixed margin, with equality exactly at
the last element (one fixed-margin gap at the end). -/
theorem dynamic_layout_encloses (k : ℕ) (hk : 1 ≤ k) :
    dynDescTextY + dynDescLine * k < dynSepY k ∧
    dynDescTextY + dynDescLine * k < dynClientRowY k ∧
    dynFrameTop < dynRow1Y ∧
    (dynContentYs k).Pairwise (fun a b => a < b) ∧
    (∀ y ∈ dynContentYs k, y + dynMargin ≤ dynFrameBottom k) ∧
    dynQtyRowY k + dynMargin = dynFrameBottom k := by
  refine ⟨?_, ?_, by decide, ?_, ?_, rfl⟩
  · rw [dynDescTextY_eq, dynSepY_eq]
    unfold dynDescLine
    omega
  · rw [dynDescTextY_eq, dynClientRowY_eq]
    unfold dynDescLine
    omega
  · unfold dynContentYs
    rw [List.pairwise_append]
    refine ⟨?_, ?_, ?_⟩
    · rw [List.pairwise_append]
      refine ⟨by decide, ?_, ?_⟩
      · rw [List.pairwise_map]
        refine (List.pairwise_lt_range k).imp ?_
        intro i j hij
        rw [dynDescTextY_eq]
        unfold dynDescLine
        omega
      · intro a ha b hb
        have haval : a ≤ 128 := by
          rcases List.mem_cons.mp ha with rfl | ha2
          · decide
          · rw [List.mem_singleton] at ha2
            subst ha2
            decide
        obtain ⟨i, hi, rfl⟩ := List.mem_map.mp hb
        rw [dynDescTextY_eq]
        unfold dynDescLine
        omega
    · refine List.pairwise_cons.mpr ⟨?_, List.pairwise_cons.mpr ⟨?_, ?_⟩⟩
      · intro z hz
        rcases List.mem_cons.mp hz with rfl | hz2
        · rw [dynSepY_eq, dynClientRowY_eq]
          omega
        · rw [List.mem_singleton] at hz2
          subst hz2
          rw [dynSepY_eq, dynQtyRowY_eq]
          omega
      · intro z hz
        rw [List.mem_singleton] at hz
        subst hz
        rw [dynClientRowY_eq, dynQtyRowY_eq]
        omega
      · exact List.pairwise_singleton _ _
    · intro a ha b hb
      have ha2 : a ≤ 130 + 12 * k := by
        rcases List.mem_append.mp ha with h1 | h2
        · have : a ≤ 128 := by
            rcases List.mem_cons.mp h1 with rfl | h3
            · decide
            · rw [List.mem_singleton] at h3
              subst h3
              decide
          omega
        · obtain ⟨i, hi, rfl⟩ := List.mem_map.mp h2
          rw [List.mem_range] at hi
          rw [dynDescTextY_eq]
          unfold dynDescLine
          omega
      rcases List.mem_cons.mp hb with rfl | hb2
      · rw [dynSepY_eq]
        omega
      · rcases List.mem_cons.mp hb2 with rfl | hb3
        · rw [dynClientRowY_eq]
          omega
        · rw [List.mem_singleton] at hb3
          subst hb3
          rw [dynQtyRowY_eq]
          omega
  · intro y hy
    rw [dynFrameBottom_eq]
    unfold dynMargin
    unfold dynContentYs at hy
    rcases List.mem_append.mp hy with hy1 | hy2
    · rcases List.mem_append.mp hy1 with hya | hyb
      · have : y ≤ 128 := by
          rcases List.mem_cons.mp hya with rfl | h2
          · decide
          · rw [List.mem_singleton] at h2
            subst h2
            decide
        omega
      · obtain ⟨i, hi, rfl⟩ := List.mem_map.mp hyb
        rw [List.mem_range] at hi
        rw [dynDescTextY_eq]
        unfold dynDescLine
        omega
    · rcases List.mem_cons.mp hy2 with rfl | hy3
      · rw [dynSepY_eq]
        omega
      · rcases List.mem_cons.mp hy3 with rfl | hy4
        · rw [dynClientRowY_eq]
          omega
        · rw [List.mem_singleton] at hy4
          subst hy4
          rw [dynQtyRowY_eq]
          omega

/-- Concrete run of `dynamic_layout_encloses` at the 3-line description of
the spec's own test scenario. -/
theorem dynamic_layout_encloses_check :
    (dynContentYs 3).Pairwise (fun a b => a < b) :=
  (dynamic_layout_encloses 3 (by decide)).2.2.2.1
